import Mathlib

/-!
Verification of the signal-driven portfolio allocation engine: a shallow
embedding of the surveyed strategy scripts (the regime/momentum engine, the
single-asset exit-rule strategy, the random-choice strategy and the constant
short strategy), with proofs about normalization, universe completeness,
cooldown behaviour, error handling, scoring totality, selection stability and
the position-exit rules.

Python floats are embedded as exact rationals (`Rat`); Python exceptions as an
explicit `Except` layer; Python dicts as association lists in insertion order.
-/

set_option maxRecDepth 100000

namespace AllocEngine

/-- Python exception kinds the embedded strategies can raise. -/
inductive PyErr where
  | keyError
  | indexError
  | zeroDivisionError
  | valueError
  | typeError
deriving DecidableEq

instance {ε α : Type} [DecidableEq ε] [DecidableEq α] :
    DecidableEq (Except ε α) := fun x y =>
  match x, y with
  | .ok a, .ok b =>
    if h : a = b then isTrue (by rw [h]) else
      isFalse (fun hh => by cases hh; exact h rfl)
  | .ok _, .error _ => isFalse (fun hh => by cases hh)
  | .error _, .ok _ => isFalse (fun hh => by cases hh)
  | .error e, .error f =>
    if h : e = f then isTrue (by rw [h]) else
      isFalse (fun hh => by cases hh; exact h rfl)

/-- Python float division: raises `ZeroDivisionError` on a zero denominator. -/
def pyDiv (a b : Rat) : Except PyErr Rat :=
  if b = 0 then .error .zeroDivisionError else .ok (a / b)

/-- Python negative indexing `l[-k]` (for `k ≥ 1`): the `k`-th element from the
end, raising `IndexError` when the list is shorter than `k`. -/
def pyIdxNeg (l : List Rat) (k : Nat) : Except PyErr Rat :=
  if h : 1 ≤ k ∧ k ≤ l.length then
    .ok (l.get ⟨l.length - k, by omega⟩)
  else
    .error .indexError

/-- One OHLCV bar. The source reads `high`, `low`, `close` and `volume`; the
`date` field is omitted because the source only uses it as a frame index. -/
structure Bar where
  high : Rat
  low : Rat
  close : Rat
  volume : Rat
deriving DecidableEq

/-- One snapshot of the window: the Python dict `asset_id -> bar` for a single
timestamp, modelled as an association list in insertion order. -/
abbrev Snapshot := List (String × Bar)

/-- First-match association-list read (Python `d[k]` made total via `Option`). -/
def alistGet? {β : Type} : List (String × β) → String → Option β
  | [], _ => none
  | p :: rest, k => if p.1 = k then some p.2 else alistGet? rest k

/-- Bars of one asset across the window, as `d[asset]` reads them snapshot by
snapshot; `KeyError` when the asset is missing from some snapshot. -/
def barsFor (asset : String) : List Snapshot → Except PyErr (List Bar)
  | [] => .ok []
  | s :: rest =>
    match alistGet? s asset with
    | some b => (barsFor asset rest).map (fun bs => b :: bs)
    | none => .error .keyError

/-- Close prices of one asset across the window
(`[d[asset]['close'] for d in data]`). -/
def pricesFor (asset : String) (data : List Snapshot) : Except PyErr (List Rat) :=
  (barsFor asset data).map (fun bs => bs.map Bar.close)

/-- The latest close `data[-1][asset]["close"]`. -/
def closeAt (asset : String) (data : List Snapshot) : Except PyErr Rat :=
  match data.getLast? with
  | none => .error .indexError
  | some s =>
    match alistGet? s asset with
    | some b => .ok b.close
    | none => .error .keyError

/-- Modelled from the spec: the platform indicator `VWAP(asset, data, length)`
(the indicator library is an external collaborator, absent from the sources).
Its last value is the volume-weighted average of the typical price
`(high+low+close)/3` over the trailing `length` bars (fewer when the window is
shorter); a zero total volume yields NaN, modelled as `none`; an empty window
makes the trailing `[-1]` read raise `IndexError`. -/
def vwapLast (asset : String) (data : List Snapshot) (length : Nat) :
    Except PyErr (Option Rat) := do
  let bs ← barsFor asset data
  if bs.isEmpty then
    .error .indexError
  else
    let w := bs.reverse.take length
    let tpv := (w.map (fun b => (b.high + b.low + b.close) / 3 * b.volume)).sum
    let vol := (w.map (fun b => b.volume)).sum
    if vol = 0 then pure none else pure (some (tpv / vol))

/-- Exponentially weighted recursion `e' = alpha * c + (1 - alpha) * e`. -/
def emaFold (alpha : Rat) (e : Rat) : List Rat → Rat
  | [] => e
  | c :: rest => emaFold alpha (alpha * c + (1 - alpha) * e) rest

/-- Modelled from the spec: the platform indicator `EMA(asset, data, length)`
(the indicator library is an external collaborator, absent from the sources).
Per the spec's warm-up rule — SMA/EMA require `length` prior samples — the
last value is NaN (modelled as `none`) while the window holds fewer than
`length` bars; from `length` bars on it is the classic exponential mean with
`alpha = 2/(length+1)`, seeded with the mean of the first `length` closes.
An empty window makes the trailing `[-1]` read raise `IndexError`. -/
def emaLast (asset : String) (data : List Snapshot) (length : Nat) :
    Except PyErr (Option Rat) := do
  let ps ← pricesFor asset data
  if ps.isEmpty then
    .error .indexError
  else if ps.length < length then
    pure none
  else
    let seed := (ps.take length).sum / (length : Rat)
    pure (some (emaFold (2 / ((length : Rat) + 1)) seed (ps.drop length)))

/-- Python comparison `a < b` with a possibly-NaN right operand: every
comparison against NaN is False. -/
def pyLtOpt (a : Rat) : Option Rat → Bool
  | some b => decide (a < b)
  | none => false

/-- Rolling mean of window size `L`: one value per full window. -/
def smaList (ps : List Rat) (L : Nat) : List Rat :=
  (List.range (ps.length + 1 - L)).map (fun i => ((ps.drop i).take L).sum / (L : Rat))

/-- Modelled from the spec: the platform indicator `SMA(asset, data, length)`
(external collaborator), emitting one rolling mean per full window. -/
def smaSeries (asset : String) (data : List Snapshot) (L : Nat) :
    Except PyErr (List Rat) :=
  (pricesFor asset data).map (fun ps => smaList ps L)

/-- Target allocation: `asset -> weight`, a Python dict in insertion order. -/
abbrev Alloc := List (String × Rat)

/-- Python dict assignment `d[k] = v`: replaces the value at the first
occurrence of `k`, appending a new entry when `k` is absent. -/
def dictSet : Alloc → String → Rat → Alloc
  | [], k, v => [(k, v)]
  | p :: rest, k, v => if p.1 = k then (k, v) :: rest else p :: dictSet rest k v

/-- Python dict read with a default value. -/
def dictGetD (a : Alloc) (k : String) (d : Rat) : Rat :=
  match alistGet? a k with
  | some v => v
  | none => d

/-- Sum of the allocation's weights (`sum(allocation.values())`). -/
def sumValues (a : Alloc) : Rat := (a.map Prod.snd).sum

/-- Sum of the absolute values of the allocation's weights. -/
def absSum (a : Alloc) : Rat := (a.map (fun p => |p.2|)).sum

/-! ### The regime/momentum engine (`DividendIncomeStrategy`) -/

/-- The trading universe (`self.tickers`). -/
def tickers : List String :=
  ["TLT", "EMB", "HYG", "BIL", "TIP", "BND", "AGG", "DTH", "VIG", "VYM",
   "PEY", "BNDX", "VCIT", "UUP", "IEF"]

/-- The momentum candidate universe (`self.momentum_assets`). -/
def momentumAssets : List String :=
  ["BND", "AGG", "IEF", "TLT", "HYG", "DTH", "VIG", "VYM"]

/-- `self.mom_long`. -/
def momLong : Nat := 125

/-- `self.mom_short`. -/
def momShort : Nat := 15

/-- `self.inflation_threshold`. -/
def inflationThreshold : Rat := 3

/-- `self.base_allocation`. -/
def baseAllocation : Rat := 3 / 10

/-- `self.risk_off_wait_days`. -/
def riskOffWaitDays : Int := 3

/-- Body of `TradingStrategy._calculate_momentum` before its `except` clause,
line by line: prices, `prices[-1]`, `VWAP(asset, data, 5)[-1]`, the (dead)
`len(prices) < 1` check, the long and short returns, and the score. Rationals
replace Python floats, so the only NaN source is the VWAP (`none`); the
`pd.notna` test then fails exactly when the VWAP is `none`. -/
def calculateMomentumBody (asset : String) (data : List Snapshot) :
    Except PyErr Rat := do
  let prices ← pricesFor asset data
  let close ← pyIdxNeg prices 1
  let vwapOpt ← vwapLast asset data 5
  let pLong ← pyIdxNeg prices momLong
  let retLongQ ← pyDiv close pLong
  let pShort ← pyIdxNeg prices momShort
  let retShortQ ← pyDiv close pShort
  match vwapOpt with
  | some v => pure ((retLongQ - 1) - (retShortQ - 1) * (15 / 100) + (v - close))
  | none => pure (-999)

/-- The `except (KeyError, IndexError): return -999` clause: those two
exception kinds become the sentinel score, anything else propagates. -/
def catchKeyIndex (r : Except PyErr Rat) : Except PyErr Rat :=
  match r with
  | .error .keyError => .ok (-999)
  | .error .indexError => .ok (-999)
  | r => r

/-- `TradingStrategy._calculate_momentum`: the body wrapped in the
`except (KeyError, IndexError)` clause. -/
def calculateMomentum (asset : String) (data : List Snapshot) : Except PyErr Rat :=
  catchKeyIndex (calculateMomentumBody asset data)

/-- Momentum scores of a list of assets, computed in list order with exceptions
propagating (the dict comprehension of source line 151 and the `max` key
evaluations of line 139). -/
def scoreAll (data : List Snapshot) : List String → Except PyErr (List (String × Rat))
  | [] => .ok []
  | a :: rest => do
    let s ← calculateMomentum a data
    let tl ← scoreAll data rest
    pure ((a, s) :: tl)

/-- Python `max(pool, key=momentum)`: evaluates the momentum of each candidate
in order (propagating exceptions) and returns the first maximal element;
`ValueError` on an empty pool. -/
def safeAssetOf (data : List Snapshot) (pool : List String) : Except PyErr String := do
  let scored ← scoreAll data pool
  match scored with
  | [] => .error .valueError
  | p :: rest => pure (rest.foldl (fun best q => if q.2 > best.2 then q else best) p).1

/-- Python `sorted(d, key=d.get, reverse=True)` over the scored pairs: the
unique stable descending-by-score ordering, realized by insertion sort with
the "may come first" relation `q.2 ≤ p.2`. -/
def pySortedDesc (scores : List (String × Rat)) : List (String × Rat) :=
  List.insertionSort (fun p q => q.2 ≤ p.2) scores

/-- Source line 152: the keys of the scored dict, sorted by score descending
(stable), truncated to the top 3. -/
def topYield (scores : List (String × Rat)) : List String :=
  ((pySortedDesc scores).map Prod.fst).take 3

/-- Modelled from the spec: `select_top_k` as the spec words it — stable
descending sort, keep only the assets with non-sentinel scores, take `k`.
Declared only for comparison with the source's `topYield` selection. -/
def selectTopKSpec (scores : List (String × Rat)) (k : Nat) : List String :=
  (((pySortedDesc scores).filter (fun p => decide (p.2 ≠ -999))).map Prod.fst).take k

/-- The final renormalization (source lines 166-169): divide every weight by
the raw sum, skipped when the raw sum is not positive. -/
def renormalize (a : Alloc) : Alloc :=
  if sumValues a > 0 then a.map (fun p => (p.1, p.2 / sumValues a)) else a

/-- Source lines 158-169: start from an all-zero dict over the universe, set
the safe asset to the base allocation, add the equal risk weight
`(1 - base) / len(top)` to each top asset (accumulating when the safe asset
is also a top asset), then renormalize. The keys written by
`allocation[...] = ...` are always members of the universe, so the `KeyError`
branch of Python's `+=` read is unreachable and the `dictGetD` default is
never consulted. -/
def buildAllocation (safeAsset : String) (top : List String) : Alloc :=
  let base := tickers.map (fun t => (t, (0 : Rat)))
  let withSafe := dictSet base safeAsset baseAllocation
  let riskWeight := (1 - baseAllocation) / (top.length : Rat)
  renormalize (top.foldl (fun acc t => dictSet acc t (dictGetD acc t 0 + riskWeight)) withSafe)

/-- Risk-on tail of `TradingStrategy.run` (source lines 151-172), given the
safe asset and the scored momentum universe: top-3 selection, the
degenerate-signal guard (`len(top) < 1 or scores[top[-1]] == -999`), then the
base + equal-weight construction with renormalization. -/
def riskOnAllocation (safeAsset : String) (yieldScores : List (String × Rat)) :
    Except PyErr Alloc := do
  let top := topYield yieldScores
  let degenerate ←
    match top.getLast? with
    | none => pure true
    | some lastA =>
      match alistGet? yieldScores lastA with
      | some s => pure (decide (s = -999))
      | none => Except.error PyErr.keyError
  if degenerate then
    pure [(safeAsset, 1)]
  else
    pure (buildAllocation safeAsset top)

/-- Input of one engine tick: the OHLCV window plus the auxiliary Median-CPI
value series, absent when the host did not supply `("median_cpi",)` (each CPI
record's `'value'` field is the stored rational). -/
structure EngineInput where
  ohlcv : List Snapshot
  medianCpi : Option (List Rat)
deriving DecidableEq

/-- Persistent engine state: the risk-off cooldown counter (`self.counter`). -/
structure EngineState where
  counter : Int
deriving DecidableEq

/-- `TradingStrategy.run` of the regime/momentum engine, line by line:
cooldown check, empty-window check, benchmark frame (`KeyError` when "HYG" is
absent from a snapshot), unused VWAP(50), latest close, EMA(30), CPI read
(`KeyError` when the auxiliary series is absent), safe-asset pool and pick,
risk-off trigger, and the risk-on construction (counter reset to 0 there). -/
def run942 (st : EngineState) (input : EngineInput) :
    Except PyErr (Alloc × EngineState) := do
  if st.counter > 0 then
    pure ([("BIL", 1)], ⟨st.counter - 1⟩)
  else if input.ohlcv.length < 1 then
    pure ([], st)
  else do
    let hygCloses ← pricesFor "HYG" input.ohlcv
    let _unusedVwap ← vwapLast "HYG" input.ohlcv 50
    let currentClose ← pyIdxNeg hygCloses 1
    let currentEma ← emaLast "HYG" input.ohlcv 30
    -- `current_close < current_ema`: False when the EMA is still NaN (warm-up)
    let cpiSeries ←
      match input.medianCpi with
      | some l => pure l
      | none => Except.error PyErr.keyError
    let cpiValue ← pyIdxNeg cpiSeries 1
    let pool := if cpiValue < inflationThreshold then ["TLT", "TIP", "BIL"] else ["BIL", "UUP"]
    let safeAsset ← safeAssetOf input.ohlcv pool
    if pyLtOpt currentClose currentEma = true ∧ st.counter = 0 then
      pure ([("BIL", 1)], ⟨riskOffWaitDays⟩)
    else do
      let yieldScores ← scoreAll input.ohlcv momentumAssets
      let alloc ← riskOnAllocation safeAsset yieldScores
      pure (alloc, ⟨0⟩)

/-- Sequential ticks of the regime engine (state threaded in timestamp order). -/
def runSeq942 (st : EngineState) : List EngineInput → Except PyErr (List Alloc × EngineState)
  | [] => .ok ([], st)
  | d :: ds => do
    let (a, st1) ← run942 st d
    let (rest, stF) ← runSeq942 st1 ds
    pure (a :: rest, stF)

/-! ### The single-asset exit-rule strategy (BTC-USD) -/

/-- Persistent position state of the BTC strategy: `self.count`,
`self.buy_price`, `self.watermark` (the source encodes "no position" as 0). -/
structure BtcState where
  count : Int
  buyPrice : Rat
  watermark : Rat
deriving DecidableEq

/-- Exit-rule overlay (source lines 43-61), entered only with an open position
(`buy_price > 0`): watermark raise, then hard stop and trailing stop sharing
one short-circuited `or`, then take profit. Returns either the flatten result
(zero allocation, counts -10 or -5, prices reset) or the updated watermark to
carry into the entry logic. -/
def exitCheck (st : BtcState) (data : List Snapshot) :
    Except PyErr ((Alloc × BtcState) ⊕ Rat) := do
  if st.buyPrice > 0 then do
    let close ← closeAt "BTC-USD" data
    let wm := if st.watermark < close then close else st.watermark
    let hardR ← pyDiv (st.buyPrice - close) st.buyPrice
    let stopHit ←
      if hardR > 2 / 100 then
        pure true
      else do
        let trailR ← pyDiv (wm - close) wm
        pure (decide (trailR > 1 / 100))
    if stopHit then
      pure (.inl ([("BTC-USD", 0)], ⟨-10, 0, 0⟩))
    else do
      let tpR ← pyDiv (close - st.buyPrice) st.buyPrice
      if tpR > 1 / 2 then
        pure (.inl ([("BTC-USD", 0)], ⟨-5, 0, 0⟩))
      else
        pure (.inr wm)
  else
    pure (.inr st.watermark)

/-- `TradingStrategy.run` of the BTC strategy as its source text states it,
line by line: the `count < 1` early return (increment and zero allocation,
no signal evaluated), the increment, the four SMA series (7 and 10 unused),
the exit-rule overlay, and the three-rising-SMA entry logic with its
short-circuited `and`. The staged file itself never produces this function:
its final `return` (line 80) is indented with two hard tabs against
space-indented blocks, so CPython rejects the module with `TabError` and
`TradingStrategy.run` is never defined. This definition embeds the tick
behaviour the source text prescribes but the program, as staged, cannot
execute — the evidence for the whitespace defect being a code bug rather
than intended behaviour. -/
def run2b (st : BtcState) (data : List Snapshot) : Except PyErr (Alloc × BtcState) := do
  if st.count < 1 then
    pure ([("BTC-USD", 0)], ⟨st.count + 1, st.buyPrice, st.watermark⟩)
  else do
    let count1 := st.count + 1
    let threeSma ← smaSeries "BTC-USD" data 3
    let fiveSma ← smaSeries "BTC-USD" data 5
    let _sevenSma ← smaSeries "BTC-USD" data 7
    let _tenSma ← smaSeries "BTC-USD" data 10
    let exitR ← exitCheck st data
    match exitR with
    | .inl result => pure result
    | .inr wm => do
      let s1 ← pyIdxNeg threeSma 1
      let s2 ← pyIdxNeg threeSma 2
      let rising ←
        if s1 > s2 then do
          let s3 ← pyIdxNeg threeSma 3
          pure (decide (s2 > s3))
        else
          pure false
      if rising then do
        let f1 ← pyIdxNeg fiveSma 1
        if s1 > f1 then do
          let close ← closeAt "BTC-USD" data
          pure ([("BTC-USD", 1)], ⟨count1, close, close⟩)
        else
          pure ([("BTC-USD", 0)], ⟨count1, 0, wm⟩)
      else
        pure ([("BTC-USD", 0)], ⟨count1, 0, wm⟩)

/-- Sequential ticks of the BTC strategy (state threaded in timestamp order). -/
def runSeq2b (st : BtcState) : List (List Snapshot) → Except PyErr (List Alloc × BtcState)
  | [] => .ok ([], st)
  | d :: ds => do
    let (a, st1) ← run2b st d
    let (rest, stF) ← runSeq2b st1 ds
    pure (a :: rest, stF)

/-! ### The random-choice strategy and the constant short strategy -/

/-- The random-choice strategy's `self.assets()` call (source lines 18 and
21). `assets` is declared with `@property`, so the attribute access already
yields the list `["AAPL", "MSFT"]` — and calling that list raises
`TypeError: 'list' object is not callable`. -/
def callAssets84 : Except PyErr (List String) := .error .typeError

/-- `TradingStrategy.run` of the random-choice strategy, line by line:
`random.choice(self.assets())` (the random pick over the would-be list is
the `pick` parameter), the zeroing loop over `self.assets()`, and the
weight-100 assignment to the chosen asset. Both `self.assets()` calls raise
`TypeError` (see `callAssets84`), so every tick aborts at line 18 before any
allocation dict exists: the strategy never returns an AllocationVector. -/
def run84 (pick : List String → String) : Except PyErr Alloc := do
  let cs ← callAssets84
  let choice := pick cs
  let as2 ← callAssets84
  let base := as2.map (fun a => (a, (0 : Rat)))
  pure (dictSet base choice 100)

/-- `TradingStrategy.run` of the shorting strategy: reads holdings and the
window from the input without using them and returns a constant half short. -/
def runF2 (_holdings : List (String × Rat)) (_ohlcv : List Snapshot) : Alloc :=
  [("GOOGL", -1/2)]

/-! ### Basic lemmas about the embedding's building blocks -/

theorem exceptBind_ok {ε α β : Type} (a : α) (k : α → Except ε β) :
    (Except.ok a >>= k) = k a := rfl

theorem exceptBind_error {ε α β : Type} (e : ε) (k : α → Except ε β) :
    ((Except.error e : Except ε α) >>= k) = .error e := rfl

theorem exceptPure {ε α : Type} (a : α) : (pure a : Except ε α) = .ok a := rfl

theorem pyDiv_ok {a b : Rat} (hb : b ≠ 0) : pyDiv a b = .ok (a / b) := by
  simp [pyDiv, hb]

theorem pyIdxNeg_error {l : List Rat} {k : Nat} (h : l.length < k) :
    pyIdxNeg l k = .error .indexError := by
  rw [pyIdxNeg, dif_neg]
  omega

theorem sumValues_nil : sumValues ([] : Alloc) = 0 := rfl

theorem sumValues_cons (p : String × Rat) (rest : Alloc) :
    sumValues (p :: rest) = p.2 + sumValues rest := by
  simp [sumValues]

theorem absSum_nil : absSum ([] : Alloc) = 0 := rfl

theorem absSum_cons (p : String × Rat) (rest : Alloc) :
    absSum (p :: rest) = |p.2| + absSum rest := by
  simp [absSum]

theorem dictGetD_map_zero (l : List String) (k : String) :
    dictGetD (l.map (fun t => (t, (0 : Rat)))) k 0 = 0 := by
  induction l with
  | nil => rfl
  | cons t rest ih =>
    by_cases ht : t = k
    · simp [dictGetD, alistGet?, ht]
    · simpa [dictGetD, alistGet?, ht] using ih

theorem alistGet?_map_zero_of_mem {l : List String} {k : String} (h : k ∈ l) :
    alistGet? (l.map (fun t => (t, (0 : Rat)))) k = some 0 := by
  induction l with
  | nil => cases h
  | cons t rest ih =>
    by_cases ht : t = k
    · simp [alistGet?, ht]
    · have hk : k ∈ rest := by
        rcases List.mem_cons.mp h with h1 | h1
        · exact absurd h1.symm ht
        · exact h1
      simpa [alistGet?, ht] using ih hk

theorem alistGet?_dictSet_ne {a : Alloc} {k k' : String} {v : Rat} (h : k' ≠ k) :
    alistGet? (dictSet a k v) k' = alistGet? a k' := by
  have hk : ¬ (k = k') := fun hh => h hh.symm
  induction a with
  | nil => simp [dictSet, alistGet?, hk]
  | cons p rest ih =>
    obtain ⟨pk, pv⟩ := p
    by_cases hp : pk = k
    · subst hp
      simp [dictSet, alistGet?, hk]
    · simp [dictSet, alistGet?, hp, ih]

theorem keys_dictSet_of_mem {a : Alloc} {k : String} {v : Rat}
    (h : k ∈ a.map Prod.fst) : (dictSet a k v).map Prod.fst = a.map Prod.fst := by
  induction a with
  | nil => simp at h
  | cons p rest ih =>
    obtain ⟨pk, pv⟩ := p
    by_cases hp : pk = k
    · simp [dictSet, hp]
    · have hk : k ∈ rest.map Prod.fst := by
        simp only [List.map_cons, List.mem_cons] at h
        exact h.resolve_left (fun hh => hp hh.symm)
      simp [dictSet, hp, ih hk]

theorem sumValues_dictSet (a : Alloc) (k : String) (v : Rat) :
    sumValues (dictSet a k v) = sumValues a + v - dictGetD a k 0 := by
  induction a with
  | nil =>
    simp [dictSet, dictGetD, alistGet?, sumValues_cons, sumValues_nil]
  | cons p rest ih =>
    obtain ⟨pk, pv⟩ := p
    by_cases hp : pk = k
    · subst hp
      simp [dictSet, dictGetD, alistGet?, sumValues_cons]
      ring
    · have hd : dictGetD ((pk, pv) :: rest) k 0 = dictGetD rest k 0 := by
        simp [dictGetD, alistGet?, hp]
      simp only [dictSet, hp, if_false, sumValues_cons, hd, ih]
      ring

theorem dictGetD_nonneg {a : Alloc} {k : String} {d : Rat}
    (ha : ∀ p ∈ a, 0 ≤ p.2) (hd : 0 ≤ d) : 0 ≤ dictGetD a k d := by
  induction a with
  | nil => simpa [dictGetD, alistGet?] using hd
  | cons p rest ih =>
    by_cases hp : p.1 = k
    · simpa [dictGetD, alistGet?, hp] using ha p (by simp)
    · have h1 := ih (fun q hq => ha q (by simp [hq]))
      simpa [dictGetD, alistGet?, hp] using h1

theorem nonneg_dictSet {a : Alloc} {k : String} {v : Rat}
    (ha : ∀ p ∈ a, 0 ≤ p.2) (hv : 0 ≤ v) : ∀ p ∈ dictSet a k v, 0 ≤ p.2 := by
  induction a with
  | nil =>
    intro p hp
    simp [dictSet] at hp
    simpa [hp] using hv
  | cons q rest ih =>
    intro p hp
    by_cases hq : q.1 = k
    · rcases (by
        rw [show dictSet (q :: rest) k v = (k, v) :: rest by
          cases q; simp_all [dictSet]] at hp
        simpa using hp : p = (k, v) ∨ p ∈ rest) with h | h
      · simpa [h] using hv
      · exact ha p (by simp [h])
    · rcases (by
        rw [show dictSet (q :: rest) k v = q :: dictSet rest k v by
          cases q; simp_all [dictSet]] at hp
        simpa using hp : p = q ∨ p ∈ dictSet rest k v) with h | h
      · exact h ▸ ha q (by simp)
      · exact ih (fun r hr => ha r (by simp [hr])) p h

theorem absSum_eq_sumValues {a : Alloc} (h : ∀ p ∈ a, 0 ≤ p.2) :
    absSum a = sumValues a := by
  induction a with
  | nil => rfl
  | cons p rest ih =>
    have h0 : |p.2| = p.2 := abs_of_nonneg (h p (by simp))
    rw [absSum_cons, sumValues_cons, h0, ih (fun q hq => h q (by simp [hq]))]

theorem sumValues_map_zero (l : List String) :
    sumValues (l.map (fun t => (t, (0 : Rat)))) = 0 := by
  induction l with
  | nil => rfl
  | cons t rest ih => simp [sumValues_cons, ih]

theorem sumValues_fill (l : List String) (a : Alloc) (w : Rat) :
    sumValues (l.foldl (fun acc t => dictSet acc t (dictGetD acc t 0 + w)) a)
      = sumValues a + l.length * w := by
  induction l generalizing a with
  | nil => simp
  | cons t rest ih =>
    rw [List.foldl_cons, ih, sumValues_dictSet, List.length_cons]
    push_cast
    ring

theorem sumValues_map_div (a : Alloc) (s : Rat) :
    sumValues (a.map (fun p => (p.1, p.2 / s))) = sumValues a / s := by
  induction a with
  | nil => simp [sumValues, sumValues_nil]
  | cons p rest ih =>
    simp only [List.map_cons, sumValues_cons, ih]
    rw [add_div]

theorem renormalize_of_pos {a : Alloc} (h : 0 < sumValues a) :
    renormalize a = a.map (fun p => (p.1, p.2 / sumValues a)) := by
  simp [renormalize, h]

theorem renormalize_of_nonpos {a : Alloc} (h : sumValues a ≤ 0) :
    renormalize a = a := by
  rw [renormalize, if_neg (not_lt.mpr h)]

theorem sumValues_renormalize_of_pos {a : Alloc} (h : 0 < sumValues a) :
    sumValues (renormalize a) = 1 := by
  rw [renormalize_of_pos h, sumValues_map_div, div_self (ne_of_gt h)]

theorem keys_renormalize (a : Alloc) :
    (renormalize a).map Prod.fst = a.map Prod.fst := by
  by_cases h : 0 < sumValues a
  · rw [renormalize_of_pos h, List.map_map]
    rfl
  · rw [renormalize, if_neg h]

theorem alistGet?_map_div (a : Alloc) (c : Rat) (k : String) :
    alistGet? (a.map (fun p => (p.1, p.2 / c))) k
      = (alistGet? a k).map (fun v => v / c) := by
  induction a with
  | nil => rfl
  | cons p rest ih =>
    by_cases hp : p.1 = k <;> simp [alistGet?, hp, ih]

theorem keys_fill {l : List String} {a : Alloc} {w : Rat}
    (h : ∀ t ∈ l, t ∈ a.map Prod.fst) :
    (l.foldl (fun acc t => dictSet acc t (dictGetD acc t 0 + w)) a).map Prod.fst
      = a.map Prod.fst := by
  induction l generalizing a with
  | nil => simp
  | cons t rest ih =>
    rw [List.foldl_cons]
    have hkeys := keys_dictSet_of_mem (v := dictGetD a t 0 + w) (h t (by simp))
    have h2 : ∀ u ∈ rest, u ∈ (dictSet a t (dictGetD a t 0 + w)).map Prod.fst := by
      intro u hu
      rw [hkeys]
      exact h u (by simp [hu])
    rw [ih h2, hkeys]

theorem alistGet?_fill_of_notMem {l : List String} {a : Alloc} {w : Rat} {t : String}
    (h : t ∉ l) :
    alistGet? (l.foldl (fun acc u => dictSet acc u (dictGetD acc u 0 + w)) a) t
      = alistGet? a t := by
  induction l generalizing a with
  | nil => rfl
  | cons u rest ih =>
    have hu : t ≠ u := fun hh => h (by simp [hh])
    have hrest : t ∉ rest := fun hh => h (by simp [hh])
    rw [List.foldl_cons, ih hrest, alistGet?_dictSet_ne hu]

theorem nonneg_fill {l : List String} {a : Alloc} {w : Rat}
    (ha : ∀ p ∈ a, 0 ≤ p.2) (hw : 0 ≤ w) :
    ∀ p ∈ l.foldl (fun acc u => dictSet acc u (dictGetD acc u 0 + w)) a, 0 ≤ p.2 := by
  induction l generalizing a with
  | nil => exact ha
  | cons u rest ih =>
    rw [List.foldl_cons]
    exact ih (nonneg_dictSet ha (add_nonneg (dictGetD_nonneg ha le_rfl) hw))

theorem nonneg_renormalize {a : Alloc} (ha : ∀ p ∈ a, 0 ≤ p.2) :
    ∀ p ∈ renormalize a, 0 ≤ p.2 := by
  by_cases h : 0 < sumValues a
  · rw [renormalize_of_pos h]
    intro p hp
    rcases List.mem_map.mp hp with ⟨q, hq, rfl⟩
    exact div_nonneg (ha q hq) (le_of_lt h)
  · rw [renormalize, if_neg h]
    exact ha

theorem nonneg_base : ∀ p ∈ tickers.map (fun t => (t, (0 : Rat))), 0 ≤ p.2 := by
  intro p hp
  rcases List.mem_map.mp hp with ⟨t, _, rfl⟩
  exact le_rfl

theorem baseAllocation_nonneg : (0 : Rat) ≤ baseAllocation := by
  norm_num [baseAllocation]

theorem sumValues_rawFill {s : String} {top : List String} (htop : 1 ≤ top.length) :
    sumValues (top.foldl
      (fun acc t => dictSet acc t (dictGetD acc t 0 + (1 - baseAllocation) / (top.length : Rat)))
      (dictSet (tickers.map (fun t => (t, (0 : Rat)))) s baseAllocation)) = 1 := by
  have hlen : ((top.length : Rat)) ≠ 0 := by
    have h0 : (0 : Rat) < top.length := by exact_mod_cast htop
    exact ne_of_gt h0
  rw [sumValues_fill, sumValues_dictSet, sumValues_map_zero, dictGetD_map_zero,
    mul_comm, div_mul_cancel₀ _ hlen]
  ring

theorem sumValues_buildAllocation {s : String} {top : List String}
    (htop : 1 ≤ top.length) : sumValues (buildAllocation s top) = 1 := by
  simp only [buildAllocation]
  exact sumValues_renormalize_of_pos (by rw [sumValues_rawFill htop]; norm_num)

theorem nonneg_buildAllocation {s : String} {top : List String} :
    ∀ p ∈ buildAllocation s top, 0 ≤ p.2 := by
  simp only [buildAllocation]
  refine nonneg_renormalize (nonneg_fill (nonneg_dictSet nonneg_base baseAllocation_nonneg) ?_)
  refine div_nonneg (by norm_num [baseAllocation]) ?_
  exact_mod_cast Nat.zero_le _

theorem keys_buildAllocation {s : String} {top : List String}
    (hs : s ∈ tickers) (htop : ∀ t ∈ top, t ∈ tickers) :
    (buildAllocation s top).map Prod.fst = tickers := by
  have hbasekeys : (tickers.map (fun t => (t, (0 : Rat)))).map Prod.fst = tickers := by
    rw [List.map_map]
    exact List.map_id tickers
  have hmem : s ∈ (tickers.map (fun t => (t, (0 : Rat)))).map Prod.fst := by
    rw [hbasekeys]; exact hs
  have hsafekeys := keys_dictSet_of_mem (v := baseAllocation) hmem
  have hfill : ∀ t ∈ top,
      t ∈ (dictSet (tickers.map (fun u => (u, (0 : Rat)))) s baseAllocation).map Prod.fst := by
    intro t ht
    rw [hsafekeys, hbasekeys]
    exact htop t ht
  simp only [buildAllocation]
  rw [keys_renormalize, keys_fill hfill, hsafekeys, hbasekeys]

theorem alistGet?_buildAllocation_zero {s t : String} {top : List String}
    (ht : t ∈ tickers) (hts : t ≠ s) (htop : t ∉ top) :
    alistGet? (buildAllocation s top) t = some 0 := by
  have h1 : alistGet? (dictSet (tickers.map (fun u => (u, (0 : Rat)))) s baseAllocation) t
      = some 0 := by
    rw [alistGet?_dictSet_ne hts, alistGet?_map_zero_of_mem ht]
  have h2 : alistGet? (top.foldl
      (fun acc u => dictSet acc u (dictGetD acc u 0 + (1 - baseAllocation) / (top.length : Rat)))
      (dictSet (tickers.map (fun u => (u, (0 : Rat)))) s baseAllocation)) t = some 0 := by
    rw [alistGet?_fill_of_notMem htop, h1]
  simp only [buildAllocation]
  by_cases hpos : 0 < sumValues (top.foldl
      (fun acc u => dictSet acc u (dictGetD acc u 0 + (1 - baseAllocation) / (top.length : Rat)))
      (dictSet (tickers.map (fun u => (u, (0 : Rat)))) s baseAllocation))
  · rw [renormalize_of_pos hpos, alistGet?_map_div, h2]
    simp
  · rw [renormalize, if_neg hpos, h2]

theorem exceptMap_ok {ε α β : Type} (f : α → β) (a : α) :
    (Except.ok a : Except ε α).map f = .ok (f a) := rfl

theorem exceptMap_error {ε α β : Type} (f : α → β) (e : ε) :
    (Except.error e : Except ε α).map f = .error e := rfl

theorem pyIdxNeg_ok {l : List Rat} {k : Nat} (h1 : 1 ≤ k) (h2 : k ≤ l.length) :
    ∃ x, pyIdxNeg l k = .ok x := by
  rw [pyIdxNeg, dif_pos ⟨h1, h2⟩]
  exact ⟨_, rfl⟩

theorem pyIdxNeg_shape (l : List Rat) (k : Nat) :
    (∃ x, pyIdxNeg l k = .ok x) ∨ pyIdxNeg l k = .error .indexError := by
  rw [pyIdxNeg]
  split
  · exact .inl ⟨_, rfl⟩
  · exact .inr rfl

theorem pyDiv_shape (a b : Rat) :
    (∃ x, pyDiv a b = .ok x) ∨ pyDiv a b = .error .zeroDivisionError := by
  rw [pyDiv]
  split
  · exact .inr rfl
  · exact .inl ⟨_, rfl⟩

theorem barsFor_error {asset : String} {d : List Snapshot} {e : PyErr}
    (h : barsFor asset d = .error e) : e = .keyError := by
  induction d generalizing e with
  | nil => simp [barsFor] at h
  | cons s rest ih =>
    simp only [barsFor] at h
    cases hg : alistGet? s asset with
    | some b =>
      simp only [hg] at h
      cases hb : barsFor asset rest with
      | ok bs => simp only [hb, exceptMap_ok] at h; cases h
      | error e' =>
        simp only [hb, exceptMap_error, Except.error.injEq] at h
        exact h ▸ ih hb
    | none =>
      simp only [hg, Except.error.injEq] at h
      exact h.symm

theorem barsFor_length {asset : String} {d : List Snapshot} {bs : List Bar}
    (h : barsFor asset d = .ok bs) : bs.length = d.length := by
  induction d generalizing bs with
  | nil =>
    simp only [barsFor, Except.ok.injEq] at h
    simp [← h]
  | cons s rest ih =>
    simp only [barsFor] at h
    cases hg : alistGet? s asset with
    | some b =>
      simp only [hg] at h
      cases hb : barsFor asset rest with
      | ok tl =>
        simp only [hb, exceptMap_ok, Except.ok.injEq] at h
        simp [← h, ih hb]
      | error e => simp only [hb, exceptMap_error] at h; cases h
    | none => simp only [hg] at h; cases h

theorem pricesFor_error {asset : String} {d : List Snapshot} {e : PyErr}
    (h : pricesFor asset d = .error e) : e = .keyError := by
  rw [pricesFor] at h
  cases hb : barsFor asset d with
  | ok bs => rw [hb, exceptMap_ok] at h; cases h
  | error e' =>
    rw [hb, exceptMap_error] at h
    cases h
    exact barsFor_error hb

theorem pricesFor_length {asset : String} {d : List Snapshot} {ps : List Rat}
    (h : pricesFor asset d = .ok ps) : ps.length = d.length := by
  rw [pricesFor] at h
  cases hb : barsFor asset d with
  | ok bs =>
    rw [hb, exceptMap_ok] at h
    cases h
    simpa using barsFor_length hb
  | error e => rw [hb, exceptMap_error] at h; cases h

theorem vwapLast_ok {asset : String} {d : List Snapshot} {bs : List Bar} (L : Nat)
    (hb : barsFor asset d = .ok bs) (hnil : bs ≠ []) :
    ∃ v, vwapLast asset d L = .ok v := by
  simp only [vwapLast, hb, exceptBind_ok]
  rw [if_neg (by simpa [List.isEmpty_iff] using hnil)]
  by_cases hv : (((bs.reverse.take L).map (fun b => b.volume)).sum) = 0
  · rw [if_pos hv]; exact ⟨none, rfl⟩
  · rw [if_neg hv]; exact ⟨_, rfl⟩

theorem vwapLast_error {asset : String} {d : List Snapshot} {L : Nat} {e : PyErr}
    (h : vwapLast asset d L = .error e) : e = .keyError ∨ e = .indexError := by
  cases hb : barsFor asset d with
  | ok bs =>
    simp only [vwapLast, hb, exceptBind_ok] at h
    by_cases hnil : bs = []
    · rw [if_pos (by simp [hnil, List.isEmpty_iff])] at h
      cases h
      exact .inr rfl
    · rw [if_neg (by simpa [List.isEmpty_iff] using hnil)] at h
      by_cases hv : (((bs.reverse.take L).map (fun b => b.volume)).sum) = 0
      · rw [if_pos hv, exceptPure] at h; cases h
      · rw [if_neg hv, exceptPure] at h; cases h
  | error e' =>
    simp only [vwapLast, hb, exceptBind_error] at h
    cases h
    exact .inl (barsFor_error hb)

theorem calculateMomentum_ok_of_short {asset : String} {d : List Snapshot}
    (h : d.length < momLong) : calculateMomentum asset d = .ok (-999) := by
  cases hb : barsFor asset d with
  | error e =>
    have he := barsFor_error hb
    subst he
    have hbody : calculateMomentumBody asset d = .error .keyError := by
      rw [calculateMomentumBody, pricesFor, hb, exceptMap_error, exceptBind_error]
    rw [calculateMomentum, hbody]
    rfl
  | ok bs =>
    by_cases hnil : bs = []
    · have hbody : calculateMomentumBody asset d = .error .indexError := by
        rw [calculateMomentumBody, pricesFor, hb, exceptMap_ok, exceptBind_ok]
        rw [pyIdxNeg_error (by simp [hnil]), exceptBind_error]
      rw [calculateMomentum, hbody]
      rfl
    · obtain ⟨c, hclose⟩ := pyIdxNeg_ok (l := bs.map Bar.close) (k := 1) le_rfl
        (by simpa using List.length_pos.mpr hnil)
      obtain ⟨v, hvwap⟩ := vwapLast_ok 5 hb hnil
      have hLong : pyIdxNeg (bs.map Bar.close) momLong = .error .indexError := by
        apply pyIdxNeg_error
        have := barsFor_length hb
        simpa [this] using h
      have hbody : calculateMomentumBody asset d = .error .indexError := by
        rw [calculateMomentumBody, pricesFor, hb, exceptMap_ok, exceptBind_ok,
          hclose, exceptBind_ok, hvwap, exceptBind_ok, hLong, exceptBind_error]
      rw [calculateMomentum, hbody]
      rfl

theorem calculateMomentum_shape (asset : String) (d : List Snapshot) :
    (∃ r, calculateMomentum asset d = .ok r) ∨
      calculateMomentum asset d = .error .zeroDivisionError := by
  rw [calculateMomentum]
  cases hb : barsFor asset d with
  | error e =>
    have he := barsFor_error hb
    subst he
    rw [calculateMomentumBody, pricesFor, hb, exceptMap_error, exceptBind_error]
    exact .inl ⟨_, rfl⟩
  | ok bs =>
    rw [calculateMomentumBody, pricesFor, hb, exceptMap_ok, exceptBind_ok]
    rcases pyIdxNeg_shape (bs.map Bar.close) 1 with ⟨c, hc⟩ | hc
    · rw [hc, exceptBind_ok]
      have hnil : bs ≠ [] := by
        intro hh
        rw [hh] at hc
        rw [pyIdxNeg_error (by simp)] at hc
        cases hc
      obtain ⟨v, hv⟩ := vwapLast_ok 5 hb hnil
      rw [hv, exceptBind_ok]
      rcases pyIdxNeg_shape (bs.map Bar.close) momLong with ⟨pl, hpl⟩ | hpl
      · rw [hpl, exceptBind_ok]
        rcases pyDiv_shape c pl with ⟨r1, hr1⟩ | hr1
        · rw [hr1, exceptBind_ok]
          rcases pyIdxNeg_shape (bs.map Bar.close) momShort with ⟨psh, hpsh⟩ | hpsh
          · rw [hpsh, exceptBind_ok]
            rcases pyDiv_shape c psh with ⟨r2, hr2⟩ | hr2
            · rw [hr2, exceptBind_ok]
              cases v with
              | some vv => exact .inl ⟨_, rfl⟩
              | none => exact .inl ⟨_, rfl⟩
            · rw [hr2, exceptBind_error]
              exact .inr rfl
          · rw [hpsh, exceptBind_error]
            exact .inl ⟨_, rfl⟩
        · rw [hr1, exceptBind_error]
          exact .inr rfl
      · rw [hpl, exceptBind_error]
        exact .inl ⟨_, rfl⟩
    · rw [hc, exceptBind_error]
      exact .inl ⟨_, rfl⟩

theorem scoreAll_fst {d : List Snapshot} {l : List String} {s : List (String × Rat)}
    (h : scoreAll d l = .ok s) : s.map Prod.fst = l := by
  induction l generalizing s with
  | nil =>
    simp only [scoreAll, Except.ok.injEq] at h
    simp [← h]
  | cons a rest ih =>
    simp only [scoreAll] at h
    cases hm : calculateMomentum a d with
    | error e => rw [hm, exceptBind_error] at h; cases h
    | ok sc =>
      rw [hm, exceptBind_ok] at h
      cases ht : scoreAll d rest with
      | error e => rw [ht, exceptBind_error] at h; cases h
      | ok tl =>
        rw [ht, exceptBind_ok, exceptPure] at h
        simp only [Except.ok.injEq] at h
        simp [← h, ih ht]

theorem foldMax_mem (p : String × Rat) (rest : List (String × Rat)) :
    rest.foldl (fun best q => if q.2 > best.2 then q else best) p ∈ p :: rest := by
  induction rest generalizing p with
  | nil => simp
  | cons q tl ih =>
    rw [List.foldl_cons]
    by_cases hq : q.2 > p.2
    · rw [if_pos hq]
      rcases List.mem_cons.mp (ih q) with h | h
      · simp [h]
      · simp [h]
    · rw [if_neg hq]
      rcases List.mem_cons.mp (ih p) with h | h
      · simp [h]
      · simp [h]

theorem safeAssetOf_mem {d : List Snapshot} {pool : List String} {s : String}
    (h : safeAssetOf d pool = .ok s) : s ∈ pool := by
  unfold safeAssetOf at h
  cases hs : scoreAll d pool with
  | error e => rw [hs, exceptBind_error] at h; cases h
  | ok scored =>
    rw [hs, exceptBind_ok] at h
    cases scored with
    | nil => cases h
    | cons p rest =>
      simp only [exceptPure, Except.ok.injEq] at h
      have hmem := foldMax_mem p rest
      have hfst := scoreAll_fst hs
      have : (rest.foldl (fun best q => if q.2 > best.2 then q else best) p).1
          ∈ (p :: rest).map Prod.fst := List.mem_map_of_mem _ hmem
      rw [hfst] at this
      exact h ▸ this

theorem topYield_mem {ys : List (String × Rat)} {t : String} (h : t ∈ topYield ys) :
    t ∈ ys.map Prod.fst := by
  have h1 : t ∈ (pySortedDesc ys).map Prod.fst :=
    List.mem_of_mem_take h
  rcases List.mem_map.mp h1 with ⟨p, hp, rfl⟩
  exact List.mem_map_of_mem _ ((List.perm_insertionSort _ ys).mem_iff.mp hp)

theorem riskOnAllocation_ok_shape {s : String} {ys : List (String × Rat)} {a : Alloc}
    (h : riskOnAllocation s ys = .ok a) :
    a = [(s, 1)] ∨ (a = buildAllocation s (topYield ys) ∧ 1 ≤ (topYield ys).length) := by
  unfold riskOnAllocation at h
  cases hl : (topYield ys).getLast? with
  | none =>
    simp only [hl, exceptBind_ok, exceptPure] at h
    simp only [if_pos, Except.ok.injEq] at h
    exact .inl h.symm
  | some lastA =>
    simp only [hl] at h
    cases hg : alistGet? ys lastA with
    | none => simp only [hg, exceptBind_error] at h; cases h
    | some sc =>
      simp only [hg, exceptBind_ok, exceptPure] at h
      by_cases hsc : sc = -999
      · rw [if_pos (decide_eq_true hsc)] at h
        simp only [Except.ok.injEq] at h
        exact .inl h.symm
      · rw [decide_eq_false hsc] at h
        simp only [Bool.false_eq_true, if_false, Except.ok.injEq] at h
        refine .inr ⟨h.symm, ?_⟩
        have hne : topYield ys ≠ [] := by
          intro hh
          rw [hh] at hl
          cases hl
        exact List.length_pos.mpr hne

theorem run942_cooldown (st : EngineState) (input : EngineInput) (h : 0 < st.counter) :
    run942 st input = .ok ([("BIL", 1)], ⟨st.counter - 1⟩) := by
  unfold run942
  rw [if_pos h]
  rfl

theorem run942_ok_shape {st : EngineState} {input : EngineInput} {alloc : Alloc}
    {st' : EngineState} (h : run942 st input = .ok (alloc, st')) :
    alloc = [("BIL", 1)] ∨ alloc = [] ∨
      ∃ s top, s ∈ tickers ∧ (∀ t ∈ top, t ∈ momentumAssets) ∧ 1 ≤ top.length ∧
        (alloc = [(s, 1)] ∨ alloc = buildAllocation s top) := by
  unfold run942 at h
  by_cases hc : st.counter > 0
  · rw [if_pos hc] at h
    simp only [exceptPure, Except.ok.injEq, Prod.mk.injEq] at h
    exact .inl h.1.symm
  · rw [if_neg hc] at h
    by_cases hlen : input.ohlcv.length < 1
    · rw [if_pos hlen] at h
      simp only [exceptPure, Except.ok.injEq, Prod.mk.injEq] at h
      exact .inr (.inl h.1.symm)
    · rw [if_neg hlen] at h
      cases h1 : pricesFor "HYG" input.ohlcv with
      | error e => rw [h1, exceptBind_error] at h; cases h
      | ok closes =>
      rw [h1, exceptBind_ok] at h
      cases h2 : vwapLast "HYG" input.ohlcv 50 with
      | error e => rw [h2, exceptBind_error] at h; cases h
      | ok _v =>
      rw [h2, exceptBind_ok] at h
      cases h3 : pyIdxNeg closes 1 with
      | error e => rw [h3, exceptBind_error] at h; cases h
      | ok currentClose =>
      rw [h3, exceptBind_ok] at h
      cases h4 : emaLast "HYG" input.ohlcv 30 with
      | error e => rw [h4, exceptBind_error] at h; cases h
      | ok currentEma =>
      rw [h4, exceptBind_ok] at h
      cases h5 : input.medianCpi with
      | none => simp only [h5, exceptBind_error] at h; cases h
      | some cpiList =>
      simp only [h5, exceptPure, exceptBind_ok] at h
      cases h6 : pyIdxNeg cpiList 1 with
      | error e => rw [h6, exceptBind_error] at h; cases h
      | ok cpiValue =>
      rw [h6, exceptBind_ok] at h
      have hpool : ∀ x ∈ (if cpiValue < inflationThreshold
          then ["TLT", "TIP", "BIL"] else ["BIL", "UUP"]), x ∈ tickers := by
        by_cases hcpi : cpiValue < inflationThreshold
        · rw [if_pos hcpi]
          intro x hx
          fin_cases hx <;> simp [tickers]
        · rw [if_neg hcpi]
          intro x hx
          fin_cases hx <;> simp [tickers]
      cases h7 : safeAssetOf input.ohlcv (if cpiValue < inflationThreshold
          then ["TLT", "TIP", "BIL"] else ["BIL", "UUP"]) with
      | error e => rw [h7, exceptBind_error] at h; cases h
      | ok safeAsset =>
      rw [h7, exceptBind_ok] at h
      have hsafe : safeAsset ∈ tickers := hpool _ (safeAssetOf_mem h7)
      by_cases htrig : pyLtOpt currentClose currentEma = true ∧ st.counter = 0
      · rw [if_pos htrig] at h
        simp only [exceptPure, Except.ok.injEq, Prod.mk.injEq] at h
        exact .inl h.1.symm
      · rw [if_neg htrig] at h
        cases h8 : scoreAll input.ohlcv momentumAssets with
        | error e => rw [h8, exceptBind_error] at h; cases h
        | ok ys =>
        rw [h8, exceptBind_ok] at h
        cases h9 : riskOnAllocation safeAsset ys with
        | error e => rw [h9, exceptBind_error] at h; cases h
        | ok a =>
        rw [h9, exceptBind_ok] at h
        simp only [exceptPure, Except.ok.injEq, Prod.mk.injEq] at h
        rcases riskOnAllocation_ok_shape h9 with hq | hq
        · refine .inr (.inr ⟨safeAsset, ["BND"], hsafe, ?_, by simp, .inl (h.1 ▸ hq)⟩)
          intro t ht
          fin_cases ht
          simp [momentumAssets]
        · refine .inr (.inr ⟨safeAsset, topYield ys, hsafe, ?_, hq.2, .inr (h.1 ▸ hq.1)⟩)
          intro t ht
          have hm := topYield_mem ht
          rwa [scoreAll_fst h8] at hm

theorem ifMax (wm c : Rat) : (if wm < c then c else wm) = max wm c := by
  rcases lt_or_le wm c with h | h
  · rw [if_pos h, max_eq_right (le_of_lt h)]
  · rw [if_neg (not_lt.mpr h), max_eq_left h]

theorem trailRatio_pos {x c : Rat} (hxc : c ≤ x) (h : (x - c) / x > 1 / 100) : 0 < x := by
  rcases lt_trichotomy x 0 with hx | hx | hx
  · have hnum : 0 ≤ x - c := sub_nonneg.mpr hxc
    have : (x - c) / x ≤ 0 := div_nonpos_iff.mpr (.inl ⟨hnum, le_of_lt hx⟩)
    linarith
  · rw [hx, div_zero] at h
    linarith
  · exact hx

theorem exitCheck_flatten_stop {st : BtcState} {data : List Snapshot} {c : Rat}
    (hbuy : 0 < st.buyPrice) (hclose : closeAt "BTC-USD" data = .ok c)
    (hcond : (st.buyPrice - c) / st.buyPrice > 2 / 100 ∨
      (max st.watermark c - c) / (max st.watermark c) > 1 / 100) :
    exitCheck st data = .ok (.inl ([("BTC-USD", 0)], ⟨-10, 0, 0⟩)) := by
  unfold exitCheck
  rw [if_pos hbuy, hclose, exceptBind_ok, ifMax,
    pyDiv_ok (ne_of_gt hbuy), exceptBind_ok]
  by_cases hhard : (st.buyPrice - c) / st.buyPrice > 2 / 100
  · rw [if_pos hhard, exceptPure, exceptBind_ok]
    rfl
  · have htrail := hcond.resolve_left hhard
    have hwm : 0 < max st.watermark c := trailRatio_pos (le_max_right _ _) htrail
    rw [if_neg hhard, pyDiv_ok (ne_of_gt hwm), exceptBind_ok, exceptPure, exceptBind_ok,
      decide_eq_true htrail]
    rfl

theorem exitCheck_flatten_tp {st : BtcState} {data : List Snapshot} {c : Rat}
    (hbuy : 0 < st.buyPrice) (hclose : closeAt "BTC-USD" data = .ok c)
    (hhard : ¬ (st.buyPrice - c) / st.buyPrice > 2 / 100)
    (htrail : ¬ (max st.watermark c - c) / (max st.watermark c) > 1 / 100)
    (hwm : 0 < max st.watermark c)
    (htp : (c - st.buyPrice) / st.buyPrice > 1 / 2) :
    exitCheck st data = .ok (.inl ([("BTC-USD", 0)], ⟨-5, 0, 0⟩)) := by
  unfold exitCheck
  rw [if_pos hbuy, hclose, exceptBind_ok, ifMax,
    pyDiv_ok (ne_of_gt hbuy), exceptBind_ok,
    if_neg hhard, pyDiv_ok (ne_of_gt hwm), exceptBind_ok, exceptPure, exceptBind_ok,
    decide_eq_false htrail]
  simp only [pyDiv_ok (ne_of_gt hbuy), exceptBind_ok]
  simp only [Bool.false_eq_true, if_false]
  rw [if_pos htp]
  rfl

theorem exitCheck_pass {st : BtcState} {data : List Snapshot} {c : Rat}
    (hbuy : 0 < st.buyPrice) (hclose : closeAt "BTC-USD" data = .ok c)
    (hhard : ¬ (st.buyPrice - c) / st.buyPrice > 2 / 100)
    (htrail : ¬ (max st.watermark c - c) / (max st.watermark c) > 1 / 100)
    (hwm : 0 < max st.watermark c)
    (htp : ¬ (c - st.buyPrice) / st.buyPrice > 1 / 2) :
    exitCheck st data = .ok (.inr (max st.watermark c)) := by
  unfold exitCheck
  rw [if_pos hbuy, hclose, exceptBind_ok, ifMax,
    pyDiv_ok (ne_of_gt hbuy), exceptBind_ok,
    if_neg hhard, pyDiv_ok (ne_of_gt hwm), exceptBind_ok, exceptPure, exceptBind_ok,
    decide_eq_false htrail]
  simp only [pyDiv_ok (ne_of_gt hbuy), exceptBind_ok]
  simp only [Bool.false_eq_true, if_false]
  rw [if_neg htp]
  rfl

theorem run2b_cooldown (st : BtcState) (data : List Snapshot) (h : st.count < 1) :
    run2b st data = .ok ([("BTC-USD", 0)], ⟨st.count + 1, st.buyPrice, st.watermark⟩) := by
  unfold run2b
  rw [if_pos h]
  rfl

theorem run2b_exit {st : BtcState} {data : List Snapshot} {ps : List Rat}
    {r : Alloc × BtcState}
    (hcount : 1 ≤ st.count) (hprices : pricesFor "BTC-USD" data = .ok ps)
    (hexit : exitCheck st data = .ok (.inl r)) :
    run2b st data = .ok r := by
  unfold run2b
  rw [if_neg (by omega), smaSeries, hprices, exceptMap_ok, exceptBind_ok,
    smaSeries, hprices, exceptMap_ok, exceptBind_ok,
    smaSeries, hprices, exceptMap_ok, exceptBind_ok,
    smaSeries, hprices, exceptMap_ok, exceptBind_ok,
    hexit, exceptBind_ok]
  rfl

theorem runSeq2b_cooldown (ds : List (List Snapshot)) (st : BtcState)
    (h : (ds.length : Int) ≤ 1 - st.count) :
    runSeq2b st ds = .ok (ds.map (fun _ => [("BTC-USD", 0)]),
      ⟨st.count + ds.length, st.buyPrice, st.watermark⟩) := by
  induction ds generalizing st with
  | nil =>
    simp only [runSeq2b, List.map_nil, List.length_nil]
    simp
  | cons d rest ih =>
    have hcount : st.count < 1 := by
      have := h
      simp only [List.length_cons] at this
      push_cast at this
      omega
    simp only [runSeq2b]
    rw [run2b_cooldown st d hcount, exceptBind_ok]
    have hrest : ((rest.length : Int)) ≤ 1 - (st.count + 1) := by
      have := h
      simp only [List.length_cons] at this
      push_cast at this
      omega
    rw [ih ⟨st.count + 1, st.buyPrice, st.watermark⟩ hrest]
    simp only [exceptBind_ok, exceptPure, List.map_cons, List.length_cons]
    congr 2
    push_cast
    ring_nf

theorem momentum_subset_tickers : ∀ t ∈ momentumAssets, t ∈ tickers := by decide

theorem pair_sublist_take {α : Type} {l : List α} {a b : α} {n : Nat}
    (hnd : l.Nodup) (hsub : [a, b].Sublist l) (hb : b ∈ l.take n) :
    [a, b].Sublist (l.take n) := by
  induction l generalizing n with
  | nil => simp at hsub
  | cons x xs ih =>
    cases n with
    | zero => simp at hb
    | succ m =>
      rw [List.take_succ_cons] at hb ⊢
      cases hsub with
      | cons y h =>
        have hbxs : b ∈ xs := h.subset (by simp)
        have hbx : b ≠ x := fun hbx => (List.nodup_cons.mp hnd).1 (hbx ▸ hbxs)
        have hb' : b ∈ xs.take m := by
          rcases List.mem_cons.mp hb with h1 | h1
          · exact absurd h1 hbx
          · exact h1
        exact (ih (List.nodup_cons.mp hnd).2 h hb').cons x
      | cons₂ y h =>
        have hbxs : b ∈ xs := h.subset (by simp)
        have hba : b ≠ a := fun hh => (List.nodup_cons.mp hnd).1 (hh ▸ hbxs)
        have hb' : b ∈ xs.take m := by
          rcases List.mem_cons.mp hb with h1 | h1
          · exact absurd h1 hba
          · exact h1
        exact (List.singleton_sublist.mpr hb').cons₂ a

/-! ### Concrete inputs used by the claim witnesses and counterexamples -/

/-- One benchmark bar with the median-CPI series present. -/
def tinyInput : EngineInput := ⟨[[("HYG", ⟨1, 1, 1, 1⟩)]], some [2]⟩

/-- Empty window with the median-CPI series present. -/
def emptyInput : EngineInput := ⟨[], some [2]⟩

/-- Thirty benchmark bars at 100 followed by one at 90: the EMA(30) is past
its warm-up (31 ≥ 30 samples) with value 3080/31 ≈ 99.35, so the latest
close 90 sits below it and the risk-off trigger fires. -/
def fallingInput : EngineInput :=
  ⟨List.replicate 30 [("HYG", ⟨100, 100, 100, 1⟩)] ++ [[("HYG", ⟨90, 90, 90, 1⟩)]],
   some [2]⟩

/-- One benchmark bar but no median-CPI series. -/
def noCpiInput : EngineInput := ⟨[[("HYG", ⟨1, 1, 1, 1⟩)]], none⟩

/-- Two benchmark bars but no median-CPI series. -/
def noCpiInput2 : EngineInput := ⟨[[("HYG", ⟨2, 2, 2, 1⟩)], [("HYG", ⟨3, 3, 3, 1⟩)]], none⟩

/-- 125 bars of "TLT" whose first close is 0 and later closes are 1, so the
long-lookback read `prices[-125]` hits the zero price. -/
def zeroPriceWindow : List Snapshot :=
  [("TLT", (⟨1, 1, 0, 1⟩ : Bar))] :: List.replicate 124 [("TLT", (⟨1, 1, 1, 1⟩ : Bar))]

/-- Momentum scores with only two non-sentinel entries. -/
def twoRealScores : List (String × Rat) :=
  [("BND", 1/10), ("AGG", 1/20), ("IEF", -999), ("TLT", -999), ("HYG", -999),
   ("DTH", -999), ("VIG", -999), ("VYM", -999)]

/-- One BTC bar closing at 118.5 (the spec's trailing-stop scenario). -/
def trailBar : List Snapshot := [[("BTC-USD", ⟨120, 100, 237/2, 1⟩)]]

/-- One BTC bar closing at 151 (the spec's take-profit scenario). -/
def tpBar : List Snapshot := [[("BTC-USD", ⟨151, 100, 151, 1⟩)]]

/-! ### The claims -/

/-- C1: every allocation the engine's tick emits is either the empty dict of
the degenerate empty-window tick (raw weight 0) or sums to exactly 1; the
renormalization divides every weight by the raw sum when that sum is positive
and is skipped when the raw sum is ≤ 0. Python floats are embedded as exact
rationals, so "within 1e-9" is sharpened to exact equality. -/
theorem claim_C1_normalization :
    (∀ (st : EngineState) (input : EngineInput) (alloc : Alloc) (st' : EngineState),
      run942 st input = .ok (alloc, st') → alloc = [] ∨ sumValues alloc = 1) ∧
    (∀ a : Alloc, 0 < sumValues a →
      renormalize a = a.map (fun p => (p.1, p.2 / sumValues a)) ∧
        sumValues (renormalize a) = 1) ∧
    (∀ a : Alloc, sumValues a ≤ 0 → renormalize a = a) := by
  refine ⟨?_, ?_, ?_⟩
  · intro st input alloc st' h
    rcases run942_ok_shape h with h1 | h1 | ⟨s, top, _, _, hlen, h1 | h1⟩
    · subst h1
      right
      norm_num [sumValues_cons, sumValues_nil]
    · exact .inl h1
    · subst h1
      right
      norm_num [sumValues_cons, sumValues_nil]
    · subst h1
      exact .inr (sumValues_buildAllocation hlen)
  · intro a ha
    exact ⟨renormalize_of_pos ha, sumValues_renormalize_of_pos ha⟩
  · intro a ha
    exact renormalize_of_nonpos ha

/-- Witness for C1 at a concrete tick: the degenerate one-bar input produces
the safe-asset-only allocation, whose weights sum to 1. -/
theorem claim_C1_normalization_witness :
    run942 ⟨0⟩ tinyInput = .ok ([("TLT", 1)], ⟨0⟩) ∧
      ([("TLT", (1 : Rat))] = ([] : Alloc) ∨ sumValues [("TLT", (1 : Rat))] = 1) := by
  have hrun : run942 ⟨0⟩ tinyInput = .ok ([("TLT", 1)], ⟨0⟩) := by
    with_unfolding_all decide
  exact ⟨hrun, claim_C1_normalization.1 ⟨0⟩ tinyInput [("TLT", 1)] ⟨0⟩ hrun⟩

/-- C2 fails on the code: during cooldown the tick returns the single-key
allocation `{"BIL": 1.0}`, so the universe asset "TLT" is not a key at all. -/
theorem claim_C2_universe_cex :
    run942 ⟨3⟩ emptyInput = .ok ([("BIL", 1)], ⟨2⟩) ∧
      "TLT" ∈ tickers ∧ alistGet? [("BIL", (1 : Rat))] "TLT" = none := by
  refine ⟨by with_unfolding_all decide, by decide, rfl⟩

/-- C2 amended: only the risk-on construction path returns a full-universe
allocation (every universe asset a key, untouched assets mapped to 0); the
cooldown and trigger paths return the single-key `{"BIL": 1.0}`, the
degenerate-momentum path a single safe-asset key, and the empty-window path
the empty dict. -/
theorem claim_C2_universe :
    ∀ (st : EngineState) (input : EngineInput) (alloc : Alloc) (st' : EngineState),
      run942 st input = .ok (alloc, st') →
        (alloc.map Prod.fst = tickers ∧
          ∃ (s : String) (top : List String), ∀ t ∈ tickers, t ≠ s → t ∉ top →
            alistGet? alloc t = some 0) ∨
        alloc = [("BIL", 1)] ∨ (∃ s, s ∈ tickers ∧ alloc = [(s, 1)]) ∨ alloc = [] := by
  intro st input alloc st' h
  rcases run942_ok_shape h with h1 | h1 | ⟨s, top, hs, htop, hlen, h1 | h1⟩
  · exact .inr (.inl h1)
  · exact .inr (.inr (.inr h1))
  · exact .inr (.inr (.inl ⟨s, hs, h1⟩))
  · subst h1
    left
    refine ⟨keys_buildAllocation hs (fun t ht => momentum_subset_tickers t (htop t ht)),
      s, top, ?_⟩
    intro t ht hts htop'
    exact alistGet?_buildAllocation_zero ht hts htop'

/-- Witness for C2 (amended) at a concrete cooldown tick. -/
theorem claim_C2_universe_witness :
    run942 ⟨2⟩ emptyInput = .ok ([("BIL", 1)], ⟨1⟩) ∧
      (([("BIL", (1 : Rat))].map Prod.fst = tickers ∧
          ∃ (s : String) (top : List String), ∀ t ∈ tickers, t ≠ s → t ∉ top →
            alistGet? [("BIL", (1 : Rat))] t = some 0) ∨
        [("BIL", (1 : Rat))] = [("BIL", 1)] ∨
        (∃ s, s ∈ tickers ∧ [("BIL", (1 : Rat))] = [(s, 1)]) ∨
        [("BIL", (1 : Rat))] = []) := by
  have hrun : run942 ⟨2⟩ emptyInput = .ok ([("BIL", 1)], ⟨1⟩) := by
    with_unfolding_all decide
  exact ⟨hrun, claim_C2_universe ⟨2⟩ emptyInput [("BIL", 1)] ⟨1⟩ hrun⟩

/-- C3 amended: while the cooldown counter is positive every tick returns the
fixed defensive allocation `{"BIL": 1.0}` and decrements the counter by
exactly 1, for any market data (the trigger is not re-evaluated); starting
from counter = N the next N ticks are all defensive and the counter then sits
at 0, so normal evaluation resumes on tick N+1 — not on tick N as claimed. -/
theorem claim_C3_cooldown :
    (∀ (st : EngineState) (input : EngineInput), 0 < st.counter →
      run942 st input = .ok ([("BIL", 1)], ⟨st.counter - 1⟩)) ∧
    (∀ (inputs : List EngineInput) (st : EngineState),
      st.counter = (inputs.length : Int) →
      runSeq942 st inputs = .ok (inputs.map (fun _ => [("BIL", 1)]), ⟨0⟩)) := by
  constructor
  · exact fun st input h => run942_cooldown st input h
  · intro inputs
    induction inputs with
    | nil =>
      intro st h
      simp only [List.length_nil, Nat.cast_zero] at h
      cases st
      simp only at h
      subst h
      rfl
    | cons d rest ih =>
      intro st h
      simp only [List.length_cons] at h
      push_cast at h
      have hpos : 0 < st.counter := by omega
      simp only [runSeq942]
      rw [run942_cooldown st d hpos, exceptBind_ok,
        ih ⟨st.counter - 1⟩ (by simp only []; omega), exceptBind_ok, exceptPure]
      simp

/-- Witness for C3 (amended): counter 3 yields exactly three defensive
ticks and the counter ends at 0. -/
theorem claim_C3_cooldown_witness :
    runSeq942 ⟨3⟩ [emptyInput, emptyInput, emptyInput]
      = .ok ([[("BIL", 1)], [("BIL", 1)], [("BIL", 1)]], ⟨0⟩) :=
  claim_C3_cooldown.2 [emptyInput, emptyInput, emptyInput] ⟨3⟩ (by decide)

/-- C3 as stated is off by one: the 31-bar falling window puts the EMA(30)
past its warm-up with the close below it, so the trigger fires (counter set
to 3); the next three ticks — not two — return `{"BIL": 1.0}`; the third
post-trigger tick (tick N) is still defensive, and normal evaluation (which
on an empty window yields the empty allocation) only resumes on
tick N+1 = 4. -/
theorem claim_C3_cooldown_cex :
    runSeq942 ⟨0⟩ [fallingInput, emptyInput, emptyInput, emptyInput, emptyInput]
      = .ok ([[("BIL", 1)], [("BIL", 1)], [("BIL", 1)], [("BIL", 1)], []], ⟨0⟩) := by
  with_unfolding_all decide

/-- C4 amended: the engine returns the empty allocation only for the
empty-window tick; when the auxiliary median-CPI series is missing from a
non-empty tick, the engine aborts with an uncaught KeyError instead of
emitting any AllocationVector. -/
theorem claim_C4_missing_data :
    (∀ (st : EngineState) (input : EngineInput), ¬ 0 < st.counter →
      input.ohlcv = [] → run942 st input = .ok ([], st)) ∧
    run942 ⟨0⟩ noCpiInput = .error .keyError := by
  constructor
  · intro st input hc hempty
    unfold run942
    rw [if_neg hc, if_pos (by rw [hempty]; decide)]
    rfl
  · with_unfolding_all decide

/-- Witness for C4 (amended) at a concrete empty-window tick. -/
theorem claim_C4_missing_data_witness :
    run942 ⟨0⟩ emptyInput = .ok ([], ⟨0⟩) :=
  claim_C4_missing_data.1 ⟨0⟩ emptyInput (by decide) rfl

/-- C4 as stated is false: on a non-empty tick without the median-CPI series
the engine does not return an empty/zero allocation — the `("median_cpi",)`
lookup raises an uncaught KeyError and no AllocationVector is emitted. -/
theorem claim_C4_missing_data_cex :
    run942 ⟨0⟩ noCpiInput2 = .error .keyError := by
  with_unfolding_all decide

/-- C5 amended: the momentum score is the sentinel -999 whenever the window is
shorter than the long lookback (insufficient history, missing asset data and
NaN propagation are all converted to the sentinel), and a tick's score is
always either a value or a ZeroDivisionError — the one failure the
`except (KeyError, IndexError)` clause does not catch, raised by a zero price
at a lookback index. -/
theorem claim_C5_sentinel :
    (∀ (asset : String) (d : List Snapshot), d.length < momLong →
      calculateMomentum asset d = .ok (-999)) ∧
    (∀ (asset : String) (d : List Snapshot),
      (∃ r, calculateMomentum asset d = .ok r) ∨
        calculateMomentum asset d = .error .zeroDivisionError) :=
  ⟨fun _ _ h => calculateMomentum_ok_of_short h, fun a d => calculateMomentum_shape a d⟩

/-- Witness for C5 (amended): a five-fold-too-short window scores -999. -/
theorem claim_C5_sentinel_witness :
    calculateMomentum "TLT" [[("TLT", ⟨1, 1, 1, 1⟩)]] = .ok (-999) :=
  claim_C5_sentinel.1 "TLT" [[("TLT", ⟨1, 1, 1, 1⟩)]] (by decide)

/-- C5 as stated is false for division by zero: a window whose price at the
long lookback index is 0 makes `_calculate_momentum` raise ZeroDivisionError
past the scorer boundary instead of returning -999. -/
theorem claim_C5_sentinel_cex :
    calculateMomentum "TLT" zeroPriceWindow = .error .zeroDivisionError := by
  with_unfolding_all decide

/-- C6: the sum of absolute weights stays within the cap 1 on every
AllocationVector any of the three strategies actually returns. The regime
engine's allocations have absolute sum at most 1 on every path; the
constant-short strategy returns `{"GOOGL": -0.5}` with absolute sum 0.5; and
the random-choice strategy — whose dict would carry weight 100 — never
returns an AllocationVector at all, because `self.assets()` calls the
`@property`-returned list and raises `TypeError` on every tick, so the
invariant holds vacuously there. -/
theorem claim_C6_leverage :
    (∀ (st : EngineState) (input : EngineInput) (alloc : Alloc) (st' : EngineState),
      run942 st input = .ok (alloc, st') → absSum alloc ≤ 1) ∧
    (∀ (holdings : List (String × Rat)) (ohlcv : List Snapshot),
      absSum (runF2 holdings ohlcv) ≤ 1) ∧
    (∀ pick : List String → String, run84 pick = .error .typeError) := by
  refine ⟨?_, ?_, fun pick => rfl⟩
  · intro st input alloc st' h
    rcases run942_ok_shape h with h1 | h1 | ⟨s, top, hs, htop, hlen, h1 | h1⟩
    · subst h1
      norm_num [absSum_cons, absSum_nil]
    · subst h1
      norm_num [absSum_nil]
    · subst h1
      norm_num [absSum_cons, absSum_nil]
    · subst h1
      rw [absSum_eq_sumValues nonneg_buildAllocation, sumValues_buildAllocation hlen]
  · intro holdings ohlcv
    have habs : |(-1 / 2 : Rat)| = 1 / 2 := by
      rw [abs_of_nonpos (by norm_num)]
      norm_num
    simp only [runF2, absSum_cons, absSum_nil, habs]
    norm_num

/-- Witness for C6 at a concrete cooldown tick of the engine. -/
theorem claim_C6_leverage_witness :
    absSum [("BIL", (1 : Rat))] ≤ 1 :=
  claim_C6_leverage.1 ⟨1⟩ emptyInput [("BIL", 1)] ⟨0⟩ (by with_unfolding_all decide)

/-- C7: the trailing-stop behaviour the claim describes is exactly what the
exit-rule file's source text (lines 43-53) prescribes, proved here of the
embedded intended tick `run2b`: with an open long position the tick first
lifts the watermark to max(watermark, close) — the pass-through case hands
exactly that value to the entry logic — and whenever the post-update
trailing ratio (watermark - close)/watermark exceeds the 1% trail the tick
flattens: zero allocation and the position state reset (buy price 0,
watermark 0, counter -10). The staged file, however, aborts with `TabError`
at compile time (see `run2b`), so no tick of the program can exhibit this:
the claim states the intent and the code's line-80 indentation is the bug. -/
theorem claim_C7_trailing_stop :
    (∀ (st : BtcState) (data : List Snapshot) (c : Rat),
      0 < st.buyPrice → closeAt "BTC-USD" data = .ok c →
      ¬ (st.buyPrice - c) / st.buyPrice > 2 / 100 →
      ¬ (max st.watermark c - c) / (max st.watermark c) > 1 / 100 →
      0 < max st.watermark c →
      ¬ (c - st.buyPrice) / st.buyPrice > 1 / 2 →
      exitCheck st data = .ok (.inr (max st.watermark c))) ∧
    (∀ (st : BtcState) (data : List Snapshot) (ps : List Rat) (c : Rat),
      pricesFor "BTC-USD" data = .ok ps → closeAt "BTC-USD" data = .ok c →
      1 ≤ st.count → 0 < st.buyPrice →
      (max st.watermark c - c) / (max st.watermark c) > 1 / 100 →
      run2b st data = .ok ([("BTC-USD", 0)], ⟨-10, 0, 0⟩)) := by
  constructor
  · intro st data c hbuy hclose hhard htrail hwm htp
    exact exitCheck_pass hbuy hclose hhard htrail hwm htp
  · intro st data ps c hps hclose hcount hbuy htrail
    exact run2b_exit hcount hps (exitCheck_flatten_stop hbuy hclose (.inr htrail))

/-- Witness for C7 at the spec's scenario: entry 100, watermark 120, close
118.5, ratio (120 - 118.5)/120 = 0.0125 > 0.01 flattens the position. -/
theorem claim_C7_trailing_stop_witness :
    run2b ⟨5, 100, 120⟩ trailBar = .ok ([("BTC-USD", 0)], ⟨-10, 0, 0⟩) :=
  claim_C7_trailing_stop.2 ⟨5, 100, 120⟩ trailBar [237/2] (237/2)
    (by with_unfolding_all decide) (by with_unfolding_all decide)
    (by decide) (by with_unfolding_all decide) (by with_unfolding_all decide)

/-- C8: the take-profit behaviour the claim describes is exactly what the
exit-rule file's source text (lines 55-61) prescribes, proved here of the
embedded intended tick `run2b`: with an open long position, whenever the
take-profit ratio (close - entry)/entry exceeds 0.5 the tick flattens —
zero allocation, entry price and watermark reset to their empty value 0 —
with counter -5 when the trailing stop did not fire first (and a flatten in
any case). The staged file, however, aborts with `TabError` at compile time
(see `run2b`), so no tick of the program can exhibit this: the claim states
the intent and the code's line-80 indentation is the bug. -/
theorem claim_C8_take_profit :
    ∀ (st : BtcState) (data : List Snapshot) (ps : List Rat) (c : Rat),
      pricesFor "BTC-USD" data = .ok ps → closeAt "BTC-USD" data = .ok c →
      1 ≤ st.count → 0 < st.buyPrice →
      (c - st.buyPrice) / st.buyPrice > 1 / 2 →
      (∃ n : Int, run2b st data = .ok ([("BTC-USD", 0)], ⟨n, 0, 0⟩)) ∧
      (¬ (max st.watermark c - c) / (max st.watermark c) > 1 / 100 →
        run2b st data = .ok ([("BTC-USD", 0)], ⟨-5, 0, 0⟩)) := by
  intro st data ps c hps hclose hcount hbuy htp
  have hc32 : (1 : Rat) / 2 * st.buyPrice < c - st.buyPrice := (lt_div_iff₀ hbuy).mp htp
  have hcpos : 0 < c := by linarith
  have hwm : 0 < max st.watermark c := lt_of_lt_of_le hcpos (le_max_right _ _)
  have hhard : ¬ (st.buyPrice - c) / st.buyPrice > 2 / 100 := by
    have heq : (st.buyPrice - c) / st.buyPrice = -((c - st.buyPrice) / st.buyPrice) := by
      ring
    rw [heq]
    intro hcon
    linarith
  constructor
  · by_cases htrail : (max st.watermark c - c) / (max st.watermark c) > 1 / 100
    · exact ⟨-10, run2b_exit hcount hps (exitCheck_flatten_stop hbuy hclose (.inr htrail))⟩
    · exact ⟨-5, run2b_exit hcount hps
        (exitCheck_flatten_tp hbuy hclose hhard htrail hwm htp)⟩
  · intro htrail
    exact run2b_exit hcount hps (exitCheck_flatten_tp hbuy hclose hhard htrail hwm htp)

/-- Witness for C8 at the spec's scenario: entry 100, close 151,
(151 - 100)/100 = 0.51 > 0.5 flattens with counter -5. -/
theorem claim_C8_take_profit_witness :
    run2b ⟨5, 100, 120⟩ tpBar = .ok ([("BTC-USD", 0)], ⟨-5, 0, 0⟩) :=
  (claim_C8_take_profit ⟨5, 100, 120⟩ tpBar [151] 151
    (by with_unfolding_all decide) (by with_unfolding_all decide) (by decide)
    (by with_unfolding_all decide) (by with_unfolding_all decide)).2
    (by with_unfolding_all decide)

/-- C9 amended: the top-k selection sorts stably in descending score order —
two assets with identical scores keep their original universe order, in the
full sorted sequence and in any take-k prefix containing the later one — but
when the 3rd-ranked score is the sentinel -999 (fewer than 3 real scores, all
real scores above the sentinel) the engine does not use only the real-scored
assets: it abandons the selection and returns the safe-asset-only
allocation. -/
theorem claim_C9_selection :
    (∀ (scores : List (String × Rat)) (a b : String × Rat),
      a.2 = b.2 → [a, b].Sublist scores → [a, b].Sublist (pySortedDesc scores)) ∧
    (∀ (scores : List (String × Rat)) (a b : String × Rat) (k : Nat),
      scores.Nodup → a.2 = b.2 → [a, b].Sublist scores →
      b ∈ (pySortedDesc scores).take k →
      [a, b].Sublist ((pySortedDesc scores).take k)) ∧
    (∀ (safe lastA : String) (ys : List (String × Rat)),
      (topYield ys).getLast? = some lastA → alistGet? ys lastA = some (-999) →
      riskOnAllocation safe ys = .ok [(safe, 1)]) := by
  refine ⟨?_, ?_, ?_⟩
  · intro scores a b heq hsub
    exact List.pair_sublist_insertionSort (le_of_eq heq.symm) hsub
  · intro scores a b k hnd heq hsub hb
    have hsorted : [a, b].Sublist (pySortedDesc scores) :=
      List.pair_sublist_insertionSort (le_of_eq heq.symm) hsub
    have hnd' : (pySortedDesc scores).Nodup :=
      ((List.perm_insertionSort _ scores).nodup_iff).mpr hnd
    exact pair_sublist_take hnd' hsorted hb
  · intro safe lastA ys hl hg
    unfold riskOnAllocation
    simp only [hl, hg, exceptBind_ok, exceptPure]
    simp

/-- Witness for C9 (amended): two equal-scored pairs keep their original
order through the stable descending sort. -/
theorem claim_C9_selection_witness :
    ([("A", (1 : Rat)), ("B", 1)]).Sublist [("A", (1 : Rat)), ("C", 5), ("B", 1)] ∧
    ([("A", (1 : Rat)), ("B", 1)]).Sublist
      (pySortedDesc [("A", (1 : Rat)), ("C", 5), ("B", 1)]) := by
  have hsub : ([("A", (1 : Rat)), ("B", 1)]).Sublist
      [("A", (1 : Rat)), ("C", 5), ("B", 1)] :=
    List.Sublist.cons₂ _ (List.Sublist.cons _ (List.Sublist.cons₂ _ List.Sublist.slnil))
  exact ⟨hsub, claim_C9_selection.1 _ ("A", 1) ("B", 1) rfl hsub⟩

/-- C9 as stated is false in its truncation clause: with only two real scores
the code's top-3 still contains a sentinel-scored asset (the claim predicts
just the two real ones), and the engine then abandons the selection and
returns the safe-asset-only allocation instead of allocating to them. -/
theorem claim_C9_selection_cex :
    topYield twoRealScores = ["BND", "AGG", "IEF"] ∧
    selectTopKSpec twoRealScores 3 = ["BND", "AGG"] ∧
    topYield twoRealScores ≠ selectTopKSpec twoRealScores 3 ∧
    riskOnAllocation "BIL" twoRealScores = .ok [("BIL", 1)] := by
  refine ⟨?_, ?_, ?_, ?_⟩ <;> with_unfolding_all decide

/-- C10: the re-entry-suppression mechanics the claim describes are exactly
what the exit-rule file's source text (lines 30-35 and 47-61) prescribes,
proved here of the embedded intended tick `run2b`: the hard/trailing-stop
flatten sets the tick counter to -10 and the take-profit flatten to -5;
every tick with counter < 1 just increments it and returns the zero
allocation whatever the market data (no signal evaluated); hence after a
stop-out the next 11 ticks (take-profit: 6) all emit the zero allocation,
the counter reaching 1 again only afterwards. The staged file, however,
aborts with `TabError` at compile time (see `run2b`), so no tick of the
program can exhibit this: the claim states the intent and the code's
line-80 indentation is the bug. -/
theorem claim_C10_reentry_cooldown :
    (∀ (st : BtcState) (data : List Snapshot), st.count < 1 →
      run2b st data = .ok ([("BTC-USD", 0)], ⟨st.count + 1, st.buyPrice, st.watermark⟩)) ∧
    (∀ (st : BtcState) (data : List Snapshot) (ps : List Rat) (c : Rat),
      pricesFor "BTC-USD" data = .ok ps → closeAt "BTC-USD" data = .ok c →
      1 ≤ st.count → 0 < st.buyPrice →
      (st.buyPrice - c) / st.buyPrice > 2 / 100 →
      run2b st data = .ok ([("BTC-USD", 0)], ⟨-10, 0, 0⟩)) ∧
    (∀ (st : BtcState) (data : List Snapshot) (ps : List Rat) (c : Rat),
      pricesFor "BTC-USD" data = .ok ps → closeAt "BTC-USD" data = .ok c →
      1 ≤ st.count → 0 < st.buyPrice →
      ¬ (st.buyPrice - c) / st.buyPrice > 2 / 100 →
      ¬ (max st.watermark c - c) / (max st.watermark c) > 1 / 100 →
      (c - st.buyPrice) / st.buyPrice > 1 / 2 →
      run2b st data = .ok ([("BTC-USD", 0)], ⟨-5, 0, 0⟩)) ∧
    (∀ (ds : List (List Snapshot)) (st : BtcState),
      (ds.length : Int) ≤ 1 - st.count →
      runSeq2b st ds = .ok (ds.map (fun _ => [("BTC-USD", 0)]),
        ⟨st.count + ds.length, st.buyPrice, st.watermark⟩)) := by
  refine ⟨fun st data h => run2b_cooldown st data h, ?_, ?_,
    fun ds st h => runSeq2b_cooldown ds st h⟩
  · intro st data ps c hps hclose hcount hbuy hhard
    exact run2b_exit hcount hps (exitCheck_flatten_stop hbuy hclose (.inl hhard))
  · intro st data ps c hps hclose hcount hbuy hhard htrail htp
    have hc32 : (1 : Rat) / 2 * st.buyPrice < c - st.buyPrice := (lt_div_iff₀ hbuy).mp htp
    have hcpos : 0 < c := by linarith
    have hwm : 0 < max st.watermark c := lt_of_lt_of_le hcpos (le_max_right _ _)
    exact run2b_exit hcount hps (exitCheck_flatten_tp hbuy hclose hhard htrail hwm htp)

/-- Witness for C10: after a stop-out (counter -10) eleven consecutive ticks
emit the zero allocation, the counter climbing back to exactly 1. -/
theorem claim_C10_reentry_cooldown_witness :
    runSeq2b ⟨-10, 0, 0⟩ (List.replicate 11 [])
      = .ok (List.replicate 11 [("BTC-USD", 0)], ⟨1, 0, 0⟩) :=
  claim_C10_reentry_cooldown.2.2.2 (List.replicate 11 []) ⟨-10, 0, 0⟩ (by decide)

end AllocEngine
